import Mathlib

/-!
Verification development for the ExecOS repository (Boardroom Orchestration
Engine and its React client).  The repository's visible source is the React
frontend plus a start script; the Python backend (FastAPI app under
`backend/`) is not present, so the orchestration pipeline itself is modelled
from the specification where a claim needs it, and everything else is a
shallow embedding of the TypeScript sources under `src/frontend` and
`src/unnamed`.
-/

namespace ExecOS

/-! ## Orchestration engine (modelled from the spec)

The backend that implements classification, dispatch, synthesis and the
event stream is not under `src/`; the definitions in this section are
modelled from spec sections 2, 3, 4.2, 4.3, 4.4 and 7. -/

/-- Modelled from the spec: a decomposed fragment of the user's request,
tagged with the persona keys that should answer it (spec section 3,
`SubQuery`). -/
structure SubQuery where
  id : String
  focus : String
  personas : List String
deriving DecidableEq, Repr

/-- Modelled from the spec: the complexity tier of an orchestration plan
(spec section 3, `OrchestrationPlan`). -/
inductive Complexity
  | simple
  | compound
  | complex
deriving DecidableEq, Repr

/-- Modelled from the spec: the Intent Classifier's output for one inbound
message (spec section 3, `OrchestrationPlan`). -/
structure OrchestrationPlan where
  intent : String
  complexity : Complexity
  subQueries : List SubQuery
  reasoning : String
deriving DecidableEq, Repr

/-- Modelled from the spec: the outcome of one Completion Gateway call
(spec section 6, `complete(...) → text | failure`). -/
inductive CallOutcome
  | ok (text : String)
  | failed
deriving DecidableEq, Repr

/-- Modelled from the spec: one dispatched call's result (spec section 3,
`PersonaResult`). -/
structure PersonaResult where
  persona : String
  subQueryId : String
  outcome : CallOutcome
deriving DecidableEq, Repr

/-- Modelled from the spec: the tagged events delivered over a run's stream
(spec section 3, `ChatEvent`; onboarding tags omitted because an
orchestration run never emits them). -/
inductive RunEvent
  | orchestration (intent : String) (complexity : Complexity)
  | routing (agents : List String)
  | agentResponse (agent : String) (content : String)
  | synthesis (content : String)
  | done (personaCallCount : Nat)
  | error (message : String)
deriving DecidableEq, Repr

/-- Modelled from the spec: the concrete (sub-query, persona) calls the
Dispatcher launches, one per pair (spec section 4.2). -/
def dispatchedCalls (p : OrchestrationPlan) : List (String × String) :=
  p.subQueries.flatMap (fun sq => sq.personas.map (fun k => (sq.id, k)))

/-- Modelled from the spec: the distinct persona keys participating in the
run, as listed by the `routing` event (spec section 4.2). -/
def distinctPersonas (p : OrchestrationPlan) : List String :=
  (p.subQueries.flatMap (fun sq => sq.personas)).dedup

/-- Modelled from the spec: the Synthesizer's trigger condition — "If two or
more personas contributed, or a single persona's sub-query was one of
several, the Synthesizer issues one more Completion Gateway call" (spec
section 4.3). -/
def needsSynthesis (p : OrchestrationPlan) : Bool :=
  decide (2 ≤ (distinctPersonas p).length) || decide (2 ≤ p.subQueries.length)

/-- Modelled from the spec: whether any dispatched call produced content;
the run terminates with `error` only when no content is producible at all
(spec sections 4.4 and 7). -/
def anyContent (results : List PersonaResult) : Bool :=
  results.any (fun r => match r.outcome with | .ok _ => true | .failed => false)

/-- Modelled from the spec: the text carried by one `agent_response` event —
the call's completion, or the recorded failure marker (spec section 4.2). -/
def resultContent (r : PersonaResult) : String :=
  match r.outcome with
  | .ok t => t
  | .failed => "unavailable"

/-- Modelled from the spec: the synthesis text — the unifying summary over
all successful results, or on synthesis failure the raw concatenation; both
fall out of the successful contents (spec section 4.3). -/
def synthesisText (results : List PersonaResult) : String :=
  String.join ((results.filter (fun r =>
    match r.outcome with | .ok _ => true | .failed => false)).map resultContent)

/-- Modelled from the spec: the full event sequence the Event Stream Encoder
delivers for one orchestration run.  `results` is the list of settled
`PersonaResult`s in completion order (spec sections 4.2–4.4): one
`orchestration` event for the plan, one `routing` event before any call
completes, one `agent_response` per settled call in completion order, one
`synthesis` event exactly when the Synthesizer runs, and exactly one
terminal event — `done` with the persona-call counter on success, `error`
when no content was producible. -/
def runEvents (p : OrchestrationPlan) (results : List PersonaResult) : List RunEvent :=
  RunEvent.orchestration p.intent p.complexity ::
  RunEvent.routing (distinctPersonas p) ::
  (results.map (fun r => RunEvent.agentResponse r.persona (resultContent r)) ++
    ((if needsSynthesis p then [RunEvent.synthesis (synthesisText results)] else []) ++
      [if anyContent results then RunEvent.done results.length
       else RunEvent.error "no content"]))

/-- Recognizer for `routing` events. -/
def isRoutingEv : RunEvent → Bool
  | .routing _ => true
  | _ => false

/-- Recognizer for `synthesis` events. -/
def isSynthesisEv : RunEvent → Bool
  | .synthesis _ => true
  | _ => false

/-- Recognizer for terminal (`done` or `error`) events. -/
def isTerminalEv : RunEvent → Bool
  | .done _ => true
  | .error _ => true
  | _ => false

/-- Counterexample plan for claim C2: a single persona (`ceo`) answering two
sub-queries. -/
def singlePersonaTwoQueriesPlan : OrchestrationPlan :=
  { intent := "analysis"
    complexity := Complexity.compound
    subQueries :=
      [ { id := "sq1", focus := "pricing", personas := ["ceo"] }
      , { id := "sq2", focus := "runway", personas := ["ceo"] } ]
    reasoning := "two angles, one advisor" }

/-- Settled results for `singlePersonaTwoQueriesPlan`, both successful. -/
def singlePersonaTwoQueriesResults : List PersonaResult :=
  [ { persona := "ceo", subQueryId := "sq1", outcome := CallOutcome.ok "price high" }
  , { persona := "ceo", subQueryId := "sq2", outcome := CallOutcome.ok "cut burn" } ]

/-! ## SSE event tags (claim C3)

`SSEEventType` is transcribed from the session-based chat hook
(`src/unnamed/part_004`, lines 3–12); `specChatEventTags` follows the spec's
`ChatEvent` sentence for the refinement comparison; `authHandledTags` is the
set of tags the auth-based client (`src/frontend/src/hooks/useChat.ts`)
dispatches on in its `sendMessage` event loop. -/

/-- The closed union of SSE event tags declared by the session-based client
(`export type SSEEventType = ...`). -/
inductive SSEEventType
  | routing
  | agent_reasoning
  | agent_response
  | synthesis_start
  | synthesis
  | onboarding_question
  | onboarding_complete
  | done
  | error
deriving DecidableEq, Repr

/-- The wire tag string of each `SSEEventType` member. -/
def SSEEventType.tag : SSEEventType → String
  | .routing => "routing"
  | .agent_reasoning => "agent_reasoning"
  | .agent_response => "agent_response"
  | .synthesis_start => "synthesis_start"
  | .synthesis => "synthesis"
  | .onboarding_question => "onboarding_question"
  | .onboarding_complete => "onboarding_complete"
  | .done => "done"
  | .error => "error"

/-- The nine tag strings of the session-based client's `SSEEventType`, in
declaration order. -/
def clientEventTags : List String :=
  ["routing", "agent_reasoning", "agent_response", "synthesis_start",
   "synthesis", "onboarding_question", "onboarding_complete", "done", "error"]

/-- Modelled from the spec: the eight `ChatEvent` variant tags the spec's
data model names (spec section 3); written from the spec's words for
comparison against the code's `clientEventTags`. -/
def specChatEventTags : List String :=
  ["orchestration", "routing", "agent_response", "synthesis",
   "onboarding_question", "onboarding_complete", "done", "error"]

/-- The event tags the auth-based client's `sendMessage` loop dispatches on
(`src/frontend/src/hooks/useChat.ts`, the `if (event.type === ...)` chain);
all other tags are ignored by that client. -/
def authHandledTags : List String :=
  ["orchestration", "routing", "agent_response", "synthesis"]

/-! ## Onboarding component (claims C4, C5)

Shallow embedding of the `submit` handler in
`src/frontend/src/components/Onboarding.tsx` (lines 58–111).  The JS object
`context` is modelled as an association list without duplicate keys; the
computed-key spread `{...prev, [field]: answer}` updates an existing key in
place or appends a new one. -/

/-- An onboarding question, as received from the server
(`interface Question` in `Onboarding.tsx`; fields not used by `submit` are
omitted). -/
structure Question where
  id : String
  question : String
  field : String
deriving DecidableEq, Repr

/-- JS `value.trim()`: strip whitespace from both ends (defined over the
character list so that it evaluates by kernel reduction). -/
def jsTrim (s : String) : String :=
  String.mk
    (((s.toList.dropWhile Char.isWhitespace).reverse.dropWhile
        Char.isWhitespace).reverse)

/-- JS `{...prev, [k]: v}`: update `k` in place if present, else append. -/
def ctxSet (m : List (String × String)) (k v : String) : List (String × String) :=
  if m.any (fun p => p.1 == k) then m.map (fun p => if p.1 == k then (k, v) else p)
  else m ++ [(k, v)]

/-- Lookup in the context map. -/
def ctxGet (m : List (String × String)) (k : String) : Option String :=
  (m.find? (fun p => p.1 == k)).map (fun p => p.2)

/-- The component state read and written by `submit`: the current question,
the accumulated context map, the (question, answer) history, and the
`isAnimating` re-entrancy flag. -/
structure OnbState where
  currentQuestion : Option Question
  context : List (String × String)
  history : List (String × String)
  isAnimating : Bool
deriving DecidableEq, Repr

/-- What one `submit` call does before and during its network exchange:
the updated component state, the message posted to `/api/chat`, and the
context map that would be handed to `onComplete` if the server replied
`onboarding_complete` during this call.  `onComplete(context)` in the source
reads the `context` variable captured by the `submit` closure — the value
from the render in which the handler was created — so `onCompleteArg` is the
pre-submit `st.context`, not the updated map. -/
structure SubmitOutcome where
  state : OnbState
  sentMessage : String
  onCompleteArg : List (String × String)
deriving DecidableEq, Repr

/-- Shallow embedding of `submit(value)`: early-return (`none`) when there
is no current question or `isAnimating` is set; otherwise trim the value,
record it in `context` and `history` when non-empty, and post
`answer || 'skip'`. -/
def submit (st : OnbState) (value : String) : Option SubmitOutcome :=
  match st.currentQuestion with
  | none => none
  | some q =>
    if st.isAnimating then none
    else
      let answer := jsTrim value
      some
        { state :=
            { st with
              isAnimating := true
              context :=
                if answer ≠ "" then ctxSet st.context q.field answer else st.context
              history :=
                if answer ≠ "" then st.history ++ [(q.question, answer)]
                else st.history }
          sentMessage := if answer = "" then "skip" else answer
          onCompleteArg := st.context }

/-- A fresh onboarding state sitting on a question whose answer is stored
under the `name` field. -/
def freshNameState : OnbState :=
  { currentQuestion := some { id := "name", question := "What should we call you?", field := "name" }
    context := []
    history := []
    isAnimating := false }

/-- The final onboarding step: one answer (`name`) already collected, the
last question stores under the `goals` field. -/
def finalGoalsState : OnbState :=
  { currentQuestion := some { id := "goals", question := "What are your goals?", field := "goals" }
    context := [("name", "Ada")]
    history := [("What should we call you?", "Ada")]
    isAnimating := false }

/-! ## App routing (claim C6)

Shallow embedding of the session-based `App` component
(`src/unnamed/part_006`) and of the initial-load effect of `Onboarding`
(`Onboarding.tsx`, lines 31–47).  `clearSession` generates a fresh UUID and
stores it; freshness is modelled by a strictly increasing counter. -/

/-- The two screens the App renders (`type AppState`). -/
inductive AppScreen
  | onboarding
  | boardroom
deriving DecidableEq, Repr

/-- The App's state: which screen is shown, the session identifier, and the
context handed over by onboarding. -/
structure AppModel where
  screen : AppScreen
  sessionId : Nat
  context : List (String × String)
deriving DecidableEq, Repr

/-- The inputs that drive the App: `handleOnboardingComplete`,
`handleResetSession`, and an ordinary user message (which routes to
whichever screen is mounted and changes neither screen nor session). -/
inductive AppEvent
  | onboardingComplete (ctx : List (String × String))
  | resetSession
  | userMessage (text : String)
deriving DecidableEq, Repr

/-- One App transition: `handleOnboardingComplete` stores the context and
switches to the boardroom; `handleResetSession` clears the session (fresh
id) and returns to onboarding; a user message leaves the App state alone. -/
def appStep (st : AppModel) : AppEvent → AppModel
  | .onboardingComplete ctx => { st with screen := .boardroom, context := ctx }
  | .resetSession =>
      { screen := .onboarding, sessionId := st.sessionId + 1, context := [] }
  | .userMessage _ => st

/-- Where a user message is handled, given the mounted screen. -/
inductive MessageTarget
  | chatPath
  | onboardingPath
deriving DecidableEq, Repr

/-- The App renders `Boardroom` when `appState === 'boardroom'`, so messages
then flow to the main chat path; otherwise the `Onboarding` component
receives them. -/
def messageTarget (st : AppModel) : MessageTarget :=
  match st.screen with
  | .boardroom => .chatPath
  | .onboarding => .onboardingPath

/-- The `/api/session/start` payload consumed by `Onboarding`'s initial
effect. -/
structure StartResponse where
  onboarding_complete : Bool
  context : List (String × String)
  question : Option Question
deriving Repr

/-- What the initial-load effect does with the payload. -/
inductive LoadAction
  | complete (ctx : List (String × String))
  | showQuestion (q : Question)
  | stayLoading
deriving DecidableEq, Repr

/-- Shallow embedding of the initial-load effect: a payload reporting
`onboarding_complete` calls `onComplete(data.context)` and shows no
question; otherwise the delivered question (if any) is shown. -/
def initialLoad (r : StartResponse) : LoadAction :=
  if r.onboarding_complete then .complete r.context
  else
    match r.question with
    | some q => .showQuestion q
    | none => .stayLoading

/-! ## Chat hook message handling (claims C7, C8)

Shallow embedding of `useChat` — the session-based variant in
`src/unnamed/part_004` and the auth-based variant in
`src/frontend/src/hooks/useChat.ts`. -/

/-- The payload of one `agent_response` event (the fields the update
depends on). -/
structure AgentResponseEvent where
  agent : String
  content : String
deriving DecidableEq, Repr

/-- The chat message record, restricted to the fields the handlers read. -/
structure ChatMessage where
  role : String
  content : String
  agentKey : Option String
  isSynthesis : Bool
deriving DecidableEq, Repr

/-- The assistant message built from one `agent_response` event
(`src/unnamed/part_004`, lines 114–125). -/
def mkAgentMsg (e : AgentResponseEvent) : ChatMessage :=
  { role := "assistant"
    content := e.content
    agentKey := some e.agent
    isSynthesis := false }

/-- The `setMessages` updater the session-based client runs per
`agent_response` event: replace the first non-synthesis message with the
same agent key, else append (`prev.findIndex(...)`, lines 126–136). -/
def upsertAgentMsg (msgs : List ChatMessage) (e : AgentResponseEvent) :
    List ChatMessage :=
  match msgs.findIdx? (fun m => m.agentKey == some e.agent && !m.isSynthesis) with
  | some i => msgs.set i (mkAgentMsg e)
  | none => msgs ++ [mkAgentMsg e]

/-- The auth-based client's per-`agent_response` update
(`src/frontend/src/hooks/useChat.ts`, lines 95–103): `addMessage` always
appends a fresh assistant message, with no key lookup (fields restricted to
the ones shared with the session-based record). -/
def appendAgentMsg (msgs : List ChatMessage) (e : AgentResponseEvent) :
    List ChatMessage :=
  msgs ++ [mkAgentMsg e]

/-- A message list left by an earlier run: one non-synthesis assistant
message each for the `ceo` and `cfo` personas. -/
def priorRunMessages : List ChatMessage :=
  [mkAgentMsg { agent := "ceo", content := "ceo: first run" },
   mkAgentMsg { agent := "cfo", content := "cfo: first run" }]

/-- A later run's `agent_response` events, arriving `cfo` first, `ceo`
second — pairwise-distinct agent keys. -/
def secondRunEvents : List AgentResponseEvent :=
  [{ agent := "cfo", content := "cfo: second run" },
   { agent := "ceo", content := "ceo: second run" }]

/-- The chat hook state touched by `sendMessage`'s guard phase. -/
structure ChatState where
  messages : List ChatMessage
  isStreaming : Bool
deriving DecidableEq, Repr

/-- The observable outcome of `sendMessage`'s synchronous prefix: the state
after it and whether a `/api/chat` request was issued. -/
structure SendStart where
  state : ChatState
  requestIssued : Bool
deriving DecidableEq, Repr

/-- The user message appended before streaming. -/
def userMsg (text : String) : ChatMessage :=
  { role := "user", content := text, agentKey := none, isSynthesis := false }

/-- Guard phase of the auth-based `sendMessage`
(`src/frontend/src/hooks/useChat.ts`, lines 40–56):
`if (!text.trim() || isStreaming || !token) return;` then append the user
message, set the streaming flag and fetch. -/
def sendMessageAuth (st : ChatState) (text : String) (token : Option String) :
    SendStart :=
  if jsTrim text = "" ∨ st.isStreaming = true ∨ token = none then
    { state := st, requestIssued := false }
  else
    { state := { messages := st.messages ++ [userMsg text], isStreaming := true }
      requestIssued := true }

/-- Guard phase of the session-based `sendMessage`
(`src/unnamed/part_004`, lines 52–82): `if (isStreaming) return;` then
append the user message only when `text.trim()` is non-empty, set the
streaming flag, and fetch unconditionally. -/
def sendMessageSession (st : ChatState) (text : String) : SendStart :=
  if st.isStreaming = true then { state := st, requestIssued := false }
  else
    { state :=
        { messages :=
            if jsTrim text ≠ "" then st.messages ++ [userMsg text]
            else st.messages
          isStreaming := true }
      requestIssued := true }

/-! ## SSE read loop and line buffering (claim C9)

Shallow embedding of the identical read loops in
`src/frontend/src/hooks/useChat.ts` (lines 66–120) and
`src/unnamed/part_004` (lines 90–165): `buffer += chunk`,
`lines = buffer.split('\n')`, `buffer = lines.pop() || ''`, then for each
complete line, lines without the `data: ` marker are skipped and the JSON
payload is parsed inside a try/catch whose failure is ignored.  JS strings
are modelled as `List Char` and `JSON.parse` as an abstract
`parse : List Char → Option E` (`none` = the catch branch). -/

/-- Prepend a character to the first segment of a split (helper for
`splitOnNl`). -/
def consHead (c : Char) : List (List Char) → List (List Char)
  | [] => [[c]]
  | l :: ls => (c :: l) :: ls

/-- JS `s.split('\n')` over a character list: always returns at least one
segment; a trailing newline yields a trailing empty segment, exactly as in
JS. -/
def splitOnNl : List Char → List (List Char)
  | [] => [[]]
  | c :: rest => if c = '\n' then [] :: splitOnNl rest else consHead c (splitOnNl rest)

/-- Prepend a pending segment onto the first segment of a later split
(helper describing how `splitOnNl` acts on concatenations). -/
def consPre (a : List Char) : List (List Char) → List (List Char)
  | [] => [a]
  | b :: bs => (a ++ b) :: bs

/-- Merge the splits of two concatenated strings: the last segment of the
first split fuses with the first segment of the second. -/
def glue : List (List Char) → List (List Char) → List (List Char)
  | [], bs => bs
  | [a], bs => consPre a bs
  | a :: as, bs => a :: glue as bs

/-- The marker prefix of an SSE data line (`'data: '`). -/
def dataChars : List Char := ['d', 'a', 't', 'a', ':', ' ']

/-- Boolean prefix test over character lists (JS `startsWith`). -/
def leadsWith : List Char → List Char → Bool
  | [], _ => true
  | _ :: _, [] => false
  | p :: ps, c :: cs => p == c && leadsWith ps cs

/-- One complete line's contribution: `if (!line.startsWith('data: '))
continue;` then `JSON.parse(line.slice(6))` with the catch branch skipping
the line (`none`). -/
def lineToEvent {E : Type} (parse : List Char → Option E) (line : List Char) :
    Option E :=
  if leadsWith dataChars line then parse (line.drop 6) else none

/-- The buffer left over after the last newline of `s` (JS
`lines.pop() || ''`). -/
def lastSeg (s : List Char) : List Char :=
  (splitOnNl s).getLastD []

/-- The complete (newline-terminated) lines of `s`: every split segment
except the trailing buffer. -/
def completeLines (s : List Char) : List (List Char) :=
  (splitOnNl s).dropLast

/-- The events produced by processing every complete line of `s` in order,
skipping non-`data: ` lines and parse failures. -/
def allLineEvents {E : Type} (parse : List Char → Option E) (s : List Char) :
    List E :=
  (completeLines s).filterMap (lineToEvent parse)

/-- One iteration of the read loop: append the chunk to the carried buffer,
split on newlines, process every complete line in order, and keep the
trailing segment as the new buffer. -/
def processChunk {E : Type} (parse : List Char → Option E)
    (acc : List E × List Char) (chunk : List Char) : List E × List Char :=
  (acc.1 ++ allLineEvents parse (acc.2 ++ chunk), lastSeg (acc.2 ++ chunk))

/-- The whole read loop: fold the chunks through `processChunk` starting
from an empty event list and an empty buffer; when the stream ends the
residual buffer is dropped, as in the source. -/
def processStream {E : Type} (parse : List Char → Option E)
    (chunks : List (List Char)) : List E :=
  (chunks.foldl (processChunk parse) ([], [])).1

/-! ## renderMarkdown (claim C10)

Shallow embedding of `renderMarkdown` in
`src/frontend/src/components/AgentMessage.tsx` (lines 8–24): a chain of
JS `String.replace` calls with global (and, for the line-anchored patterns,
multiline) regexes.  Strings are `List Char`.  The two lazy-group patterns
(`\*\*(.+?)\*\*`, `\*(.+?)\*`) are implemented by a leftmost scanner with a
shortest-match inner group; the line-anchored patterns (`^### (.+)$` etc.)
become per-line transforms over the newline split; the only multi-line
pattern, `(<li>.*<\/li>\n?)+ → <ul>$&</ul>`, is a scanner that wraps each
maximal run of `<li>…</li>` line segments; `\n\n → </p><p>` is a direct
two-character replace; and the final per-line callback returns the line in
both of its branches. -/

/-- `**` — the bold delimiter. -/
def boldTok : List Char := ['*', '*']

/-- `*` — the emphasis delimiter. -/
def emTok : List Char := ['*']

/-- Replacement fragments. -/
def strongOpen : List Char := "<strong>".toList

/-- Closing tag for the bold replacement. -/
def strongClose : List Char := "</strong>".toList

/-- Opening tag for the emphasis replacement. -/
def emOpen : List Char := "<em>".toList

/-- Closing tag for the emphasis replacement. -/
def emClose : List Char := "</em>".toList

/-- Lazy `(.+?)` before a closing delimiter: the shortest non-empty
newline-free inner run followed by `cls`; returns the inner run and the
text after the closing delimiter, or `none` when no close exists on this
line. -/
def innerSplit (cls : List Char) : List Char → Option (List Char × List Char)
  | [] => none
  | c :: rest =>
    if c = '\n' then none
    else if leadsWith cls rest then some ([c], rest.drop cls.length)
    else
      match innerSplit cls rest with
      | some (inner, r) => some (c :: inner, r)
      | none => none

/-- Fuel-bounded global replace of `opn(.+?)cls` by `wl$1wr`, scanning left
to right and resuming after each match, as a JS global regex replace does;
the fuel is instantiated with the string length, which bounds the number of
scanner steps. -/
def replaceDelimFuel (opn cls wl wr : List Char) : Nat → List Char → List Char
  | 0, s => s
  | _ + 1, [] => []
  | n + 1, c :: rest =>
    if leadsWith opn (c :: rest) then
      match innerSplit cls ((c :: rest).drop opn.length) with
      | some (inner, post) =>
          wl ++ inner ++ wr ++ replaceDelimFuel opn cls wl wr n post
      | none => c :: replaceDelimFuel opn cls wl wr n rest
    else c :: replaceDelimFuel opn cls wl wr n rest

/-- `.replace(/\*\*(.+?)\*\*\/g, '<strong>$1</strong>')`. -/
def replaceBold (s : List Char) : List Char :=
  replaceDelimFuel boldTok boldTok strongOpen strongClose s.length s

/-- `.replace(/\*(.+?)\*\/g, '<em>$1</em>')`. -/
def replaceEm (s : List Char) : List Char :=
  replaceDelimFuel emTok emTok emOpen emClose s.length s

/-- Join line segments back with newlines (inverse of `splitOnNl`). -/
def joinNl : List (List Char) → List Char
  | [] => []
  | [l] => l
  | l :: ls => l ++ '\n' :: joinNl ls

/-- Apply a line-anchored (`gm`) whole-line replace: transform each
newline-separated segment independently. -/
def mapLines (f : List Char → List Char) (s : List Char) : List Char :=
  joinNl ((splitOnNl s).map f)

/-- `'### '`. -/
def h3Tok : List Char := ['#', '#', '#', ' ']

/-- `'## '`. -/
def h2Tok : List Char := ['#', '#', ' ']

/-- `'# '`. -/
def h1Tok : List Char := ['#', ' ']

/-- `'- '`. -/
def dashTok : List Char := ['-', ' ']

/-- `'---'`. -/
def hrTok : List Char := ['-', '-', '-']

/-- `'. '` after the digits of an ordered-list marker. -/
def dotSpace : List Char := ['.', ' ']

/-- `^### (.+)$ → <h3>$1</h3>` on one line. -/
def h3Line (line : List Char) : List Char :=
  if leadsWith h3Tok line && decide (line.drop 4 ≠ []) then
    "<h3>".toList ++ line.drop 4 ++ "</h3>".toList
  else line

/-- `^## (.+)$ → <h2>$1</h2>` on one line. -/
def h2Line (line : List Char) : List Char :=
  if leadsWith h2Tok line && decide (line.drop 3 ≠ []) then
    "<h2>".toList ++ line.drop 3 ++ "</h2>".toList
  else line

/-- `^# (.+)$ → <h1>$1</h1>` on one line. -/
def h1Line (line : List Char) : List Char :=
  if leadsWith h1Tok line && decide (line.drop 2 ≠ []) then
    "<h1>".toList ++ line.drop 2 ++ "</h1>".toList
  else line

/-- `^- (.+)$ → <li>$1</li>` on one line. -/
def dashLine (line : List Char) : List Char :=
  if leadsWith dashTok line && decide (line.drop 2 ≠ []) then
    "<li>".toList ++ line.drop 2 ++ "</li>".toList
  else line

/-- `^\d+\. (.+)$ → <li>$1</li>` on one line (the digits are dropped by the
replacement). -/
def numLine (line : List Char) : List Char :=
  let ds := line.takeWhile Char.isDigit
  let r := line.dropWhile Char.isDigit
  if decide (ds ≠ []) && leadsWith dotSpace r && decide (r.drop 2 ≠ []) then
    "<li>".toList ++ r.drop 2 ++ "</li>".toList
  else line

/-- `^---$ → <hr/>` on one line. -/
def hrLine (line : List Char) : List Char :=
  if line = hrTok then "<hr/>".toList else line

/-- `'<li>'`. -/
def liTok : List Char := ['<', 'l', 'i', '>']

/-- `'</li>'`. -/
def liCloseTok : List Char := ['<', '/', 'l', 'i', '>']

/-- Split off the current line: the text before the first newline, and the
rest beginning with that newline (if any). -/
def lineTo : List Char → List Char × List Char
  | [] => ([], [])
  | c :: t =>
    if c = '\n' then ([], c :: t)
    else
      let p := lineTo t
      (c :: p.1, p.2)

/-- Split a newline-free string at the last occurrence of `</li>` (the
backtracked end of the greedy `.*`): the text up to and including that
`</li>`, and the rest; `none` if `</li>` does not occur. -/
def lastClose : List Char → Option (List Char × List Char)
  | [] => none
  | c :: t =>
    match lastClose t with
    | some (m, p) => some (c :: m, p)
    | none =>
        if leadsWith liCloseTok (c :: t) then some (liCloseTok, (c :: t).drop 5)
        else none

/-- One repetition of `<li>.*<\/li>\n?`: requires the text to start with
`<li>` and the current line to contain `</li>`; the greedy `.*` runs to the
line's last `</li>`, and the optional newline is consumed when the line
ends there. -/
def oneRep (s : List Char) : Option (List Char × List Char) :=
  if leadsWith liTok s then
    let lp := lineTo s
    match lastClose (lp.1.drop 4) with
    | some mp =>
        if mp.2 = [] then
          match lp.2 with
          | '\n' :: r2 => some (liTok ++ mp.1 ++ ['\n'], r2)
          | _ => some (liTok ++ mp.1, lp.2)
        else some (liTok ++ mp.1, mp.2 ++ lp.2)
    | none => none
  else none

/-- Greedy `(...)+`: as many repetitions as match, fuel-bounded. -/
def repsFuel : Nat → List Char → Option (List Char × List Char)
  | 0, _ => none
  | n + 1, s =>
    match oneRep s with
    | none => none
    | some (m, rest) =>
        match repsFuel n rest with
        | some (m2, rest2) => some (m ++ m2, rest2)
        | none => some (m, rest)

/-- Fuel-bounded leftmost scan for `(<li>.*<\/li>\n?)+ → <ul>$&</ul>`:
wrap each maximal run in `<ul>…</ul>` (the matched text itself is kept by
`$&`), otherwise advance one character. -/
def ulFuel : Nat → List Char → List Char
  | 0, s => s
  | _ + 1, [] => []
  | n + 1, c :: t =>
    match repsFuel (n + 1) (c :: t) with
    | some (m, rest) => "<ul>".toList ++ m ++ "</ul>".toList ++ ulFuel n rest
    | none => c :: ulFuel n t

/-- `.replace(/(<li>.*<\/li>\n?)+/g, '<ul>$&</ul>')`. -/
def ulWrap (s : List Char) : List Char := ulFuel s.length s

/-- `'</p><p>'`. -/
def pBreak : List Char := "</p><p>".toList

/-- `.replace(/\n\n/g, '</p><p>')`: leftmost, non-overlapping. -/
def paraScan : List Char → List Char
  | [] => []
  | [c] => [c]
  | c :: c' :: t =>
    if c = '\n' ∧ c' = '\n' then pBreak ++ paraScan t
    else c :: paraScan (c' :: t)

/-- The final per-line callback: both branches return the line unchanged. -/
def ltLine (line : List Char) : List Char :=
  if leadsWith ['<'] line then line else line

/-- The full `renderMarkdown` pipeline, stage for stage in source order. -/
def renderMarkdown (s : List Char) : List Char :=
  mapLines ltLine (paraScan (mapLines hrLine (mapLines numLine (ulWrap
    (mapLines dashLine (mapLines h1Line (mapLines h2Line (mapLines h3Line
      (replaceEm (replaceBold s))))))))))

/-- The HTML the agent-message component injects through
`dangerouslySetInnerHTML` (`AgentMessage.tsx`, lines 81–87). -/
def agentMessageInnerHtml (content : List Char) : List Char :=
  renderMarkdown content

/-- Substring occurrence test. -/
def occursIn (p : List Char) : List Char → Bool
  | [] => leadsWith p []
  | c :: t => leadsWith p (c :: t) || occursIn p t

/-- Tail check for `isHtmlTagLike`: no `<`, `>` or newline before the
single closing `>`. -/
def tagTail : List Char → Bool
  | [] => false
  | ['>'] => true
  | c :: t => !(c == '<' || c == '>' || c == '\n') && tagTail t

/-- A minimal well-formedness test for an HTML tag: `<`, a letter, then
content free of `<`, `>` and newlines, then `>`. -/
def isHtmlTagLike (s : List Char) : Bool :=
  match s with
  | '<' :: c :: t => c.isAlpha && tagTail t
  | _ => false

/-- First character is not a heading, list or rule marker. -/
def headSafe : List Char → Bool
  | [] => true
  | c :: _ => !(c == '#' || c == '-' || c.isDigit)

/-- Inputs on which no markdown pattern can fire: no asterisk, no newline,
no `<li>` occurrence, and no marker as the first character. -/
def triggerFree (s : List Char) : Bool :=
  !s.contains '\n' && !s.contains '*' && !occursIn liTok s && headSafe s

/-- A tiny concrete stand-in for `JSON.parse` used to exercise the stream
processor: accepts only the payload `1`. -/
def digitParse : List Char → Option Nat :=
  fun payload => if payload = ['1'] then some 1 else none

/-- An HTML tag (unquoted attribute value) containing a bold marker. -/
def imgTag : List Char := "<img src=**a**>".toList

/-- A script tag free of every markdown trigger. -/
def scriptTag : List Char := "<script>alert(1)</script>".toList

end ExecOS

namespace ExecOS

/-- The `agent_response` block of a run contributes no `routing` events. -/
theorem countP_agentResponses_routing (results : List PersonaResult) :
    (results.map (fun r => RunEvent.agentResponse r.persona (resultContent r))).countP
      isRoutingEv = 0 := by
  induction results with
  | nil => rfl
  | cons r rs ih => simp [List.countP_cons, ih, isRoutingEv]

/-- The `agent_response` block of a run contributes no `synthesis` events. -/
theorem countP_agentResponses_synthesis (results : List PersonaResult) :
    (results.map (fun r => RunEvent.agentResponse r.persona (resultContent r))).countP
      isSynthesisEv = 0 := by
  induction results with
  | nil => rfl
  | cons r rs ih => simp [List.countP_cons, ih, isSynthesisEv]

/-- The `agent_response` block of a run contributes no terminal events. -/
theorem countP_agentResponses_terminal (results : List PersonaResult) :
    (results.map (fun r => RunEvent.agentResponse r.persona (resultContent r))).countP
      isTerminalEv = 0 := by
  induction results with
  | nil => rfl
  | cons r rs ih => simp [List.countP_cons, ih, isTerminalEv]

/-- Composition form of `countP_agentResponses_routing`. -/
theorem countP_comp_routing (results : List PersonaResult) :
    List.countP
      (isRoutingEv ∘ fun r => RunEvent.agentResponse r.persona (resultContent r))
      results = 0 := by
  induction results with
  | nil => rfl
  | cons r rs ih => simp only [List.countP_cons, ih]; rfl

/-- Composition form of `countP_agentResponses_synthesis`. -/
theorem countP_comp_synthesis (results : List PersonaResult) :
    List.countP
      (isSynthesisEv ∘ fun r => RunEvent.agentResponse r.persona (resultContent r))
      results = 0 := by
  induction results with
  | nil => rfl
  | cons r rs ih => simp only [List.countP_cons, ih]; rfl

/-- Composition form of `countP_agentResponses_terminal`. -/
theorem countP_comp_terminal (results : List PersonaResult) :
    List.countP
      (isTerminalEv ∘ fun r => RunEvent.agentResponse r.persona (resultContent r))
      results = 0 := by
  induction results with
  | nil => rfl
  | cons r rs ih => simp only [List.countP_cons, ih]; rfl

/-- C1: for every orchestration run (any plan, any completion order of the
settled results), the delivered event sequence contains at most one
`routing` event, at most one `synthesis` event, and exactly one terminal
(`done` or `error`) event. -/
theorem run_event_counts (p : OrchestrationPlan) (results : List PersonaResult) :
    (runEvents p results).countP isRoutingEv ≤ 1 ∧
    (runEvents p results).countP isSynthesisEv ≤ 1 ∧
    (runEvents p results).countP isTerminalEv = 1 := by
  refine ⟨?_, ?_, ?_⟩ <;>
  · unfold runEvents
    cases h : needsSynthesis p <;> cases h2 : anyContent results <;>
      simp [List.countP_cons, List.countP_append,
        countP_agentResponses_routing, countP_agentResponses_synthesis,
        countP_agentResponses_terminal, countP_comp_routing,
        countP_comp_synthesis, countP_comp_terminal,
        isRoutingEv, isSynthesisEv, isTerminalEv]

/-- C2 counterexample: a run in which a single persona (`ceo`) answered two
sub-queries does emit a `synthesis` event, although only one distinct
persona was dispatched — refuting "synthesis iff more than one distinct
persona was dispatched". -/
theorem synthesis_single_persona_counterexample :
    (runEvents singlePersonaTwoQueriesPlan singlePersonaTwoQueriesResults).countP
        isSynthesisEv = 1 ∧
    (distinctPersonas singlePersonaTwoQueriesPlan).length = 1 := by
  constructor <;> rfl

/-- C2 (amended): a `synthesis` event is emitted if and only if the run
dispatched results from more than one distinct persona or the plan contained
more than one sub-query. -/
theorem synthesis_iff_multi (p : OrchestrationPlan) (results : List PersonaResult) :
    (runEvents p results).countP isSynthesisEv = 1 ↔
      (2 ≤ (distinctPersonas p).length ∨ 2 ≤ p.subQueries.length) := by
  have hcount : (runEvents p results).countP isSynthesisEv
      = if needsSynthesis p then 1 else 0 := by
    unfold runEvents
    cases h : needsSynthesis p <;> cases h2 : anyContent results <;>
      simp [List.countP_cons, List.countP_append,
        countP_agentResponses_synthesis, countP_comp_synthesis, isSynthesisEv]
  rw [hcount]
  cases h : needsSynthesis p with
  | true =>
      simp only [needsSynthesis, Bool.or_eq_true, decide_eq_true_eq] at h
      simpa using h
  | false =>
      simp only [needsSynthesis, Bool.or_eq_false_iff, decide_eq_false_iff_not] at h
      rcases h with ⟨h1, h2⟩
      simp only [Bool.false_eq_true, if_false]
      constructor
      · intro hc
        exact absurd hc (by omega)
      · intro hc
        rcases hc with hc | hc
        · exact absurd hc h1
        · exact absurd hc h2

/-- C3 counterexample: the client's event type is not a closed union of the
spec's eight tags — `agent_reasoning` is a member of the code's
`SSEEventType` union but not of the spec's list, while `orchestration` is in
the spec's list but not in the code's union. -/
theorem client_tags_differ_from_spec :
    ("agent_reasoning" ∈ clientEventTags ∧ "agent_reasoning" ∉ specChatEventTags) ∧
    ("orchestration" ∈ specChatEventTags ∧ "orchestration" ∉ clientEventTags) := by
  refine ⟨⟨?_, ?_⟩, ?_, ?_⟩ <;> decide

/-- C3 (amended): the session-based client's event type is a closed union of
exactly the nine tags `routing`, `agent_reasoning`, `agent_response`,
`synthesis_start`, `synthesis`, `onboarding_question`,
`onboarding_complete`, `done`, `error` (each member carries one of the nine,
each of the nine is carried by a member, and the nine are pairwise
distinct); the auth-based client consumes events as an open record and
dispatches only on `orchestration`, `routing`, `agent_response`,
`synthesis`. -/
theorem client_event_tag_union :
    (∀ e : SSEEventType, e.tag ∈ clientEventTags) ∧
    (∀ t ∈ clientEventTags, ∃ e : SSEEventType, e.tag = t) ∧
    clientEventTags.Nodup ∧ clientEventTags.length = 9 ∧
    authHandledTags = ["orchestration", "routing", "agent_response", "synthesis"] := by
  refine ⟨?_, ?_, by decide, by decide, rfl⟩
  · intro e
    cases e <;> simp [SSEEventType.tag, clientEventTags]
  · intro t ht
    simp only [clientEventTags, List.mem_cons, List.mem_singleton,
      List.not_mem_nil, or_false] at ht
    rcases ht with rfl | rfl | rfl | rfl | rfl | rfl | rfl | rfl | rfl
    · exact ⟨.routing, rfl⟩
    · exact ⟨.agent_reasoning, rfl⟩
    · exact ⟨.agent_response, rfl⟩
    · exact ⟨.synthesis_start, rfl⟩
    · exact ⟨.synthesis, rfl⟩
    · exact ⟨.onboarding_question, rfl⟩
    · exact ⟨.onboarding_complete, rfl⟩
    · exact ⟨.done, rfl⟩
    · exact ⟨.error, rfl⟩

/-- C3 witness: the amended theorem applied to the `agent_reasoning` member
and to the `synthesis_start` tag. -/
theorem client_event_tag_union_witness :
    SSEEventType.agent_reasoning.tag ∈ clientEventTags ∧
    ("synthesis_start" ∈ clientEventTags ∧
      ∃ e : SSEEventType, e.tag = "synthesis_start") :=
  ⟨client_event_tag_union.1 SSEEventType.agent_reasoning,
   ⟨by decide, client_event_tag_union.2.1 "synthesis_start" (by decide)⟩⟩

/-- C4: evaluating `submit` at the failing input — clicking the skip button
calls `submit('skip')`, and because `'skip'.trim()` is non-empty the code
records `context.name = "skip"` and a `(question, "skip")` history entry,
instead of leaving both unchanged as the claim states; submitting blank
input does leave both unchanged while still posting the `skip` sentinel. -/
theorem skip_button_records_skip :
    (submit freshNameState "skip").map (fun o => o.state.context)
        = some [("name", "skip")] ∧
    (submit freshNameState "skip").map (fun o => o.state.history)
        = some [("What should we call you?", "skip")] ∧
    (submit freshNameState "skip").map (fun o => o.sentMessage) = some "skip" ∧
    (submit freshNameState "").map (fun o => o.state.context) = some [] ∧
    (submit freshNameState "").map (fun o => o.state.history) = some [] ∧
    (submit freshNameState "").map (fun o => o.sentMessage) = some "skip" := by
  refine ⟨rfl, rfl, rfl, rfl, rfl, rfl⟩

/-- C5: evaluating `submit` at the failing input — on the final onboarding
step the answer `grow fast` is recorded into the component's context map,
but the map handed to `onComplete` is the stale closure value, which lacks
the final step's entry. -/
theorem onComplete_misses_final_answer :
    (submit finalGoalsState "grow fast").map (fun o => ctxGet o.state.context "goals")
        = some (some "grow fast") ∧
    (submit finalGoalsState "grow fast").map (fun o => ctxGet o.onCompleteArg "goals")
        = some none ∧
    (submit finalGoalsState "grow fast").map (fun o => o.onCompleteArg)
        = some [("name", "Ada")] := by
  refine ⟨rfl, rfl, rfl⟩

/-- One App transition never lowers the session counter. -/
theorem appStep_sessionId_le (st : AppModel) (e : AppEvent) :
    st.sessionId ≤ (appStep st e).sessionId := by
  cases e <;> simp [appStep]

/-- A run of App transitions never lowers the session counter. -/
theorem foldl_appStep_sessionId_le :
    ∀ (evs : List AppEvent) (st : AppModel),
      st.sessionId ≤ (evs.foldl appStep st).sessionId := by
  intro evs
  induction evs with
  | nil => intro st; exact Nat.le_refl _
  | cons e rest ih =>
      intro st
      exact Nat.le_trans (appStep_sessionId_le st e) (ih (appStep st e))

/-- C6: once onboarding has completed, the boardroom screen is never left
for the same session — (a) any event run free of `resetSession` keeps the
App on the boardroom screen, with user messages flowing to the main chat
path; (b) any run that does land back on the onboarding screen carries a
strictly newer session id, so onboarding is never re-entered for the
completed session; and (c) an initial session load reporting
`onboarding_complete` goes straight to completion, never showing an
onboarding question. -/
theorem onboarding_complete_terminal :
    (∀ (st : AppModel) (evs : List AppEvent),
        st.screen = AppScreen.boardroom →
        AppEvent.resetSession ∉ evs →
        (evs.foldl appStep st).screen = AppScreen.boardroom ∧
          messageTarget (evs.foldl appStep st) = MessageTarget.chatPath) ∧
    (∀ (st : AppModel) (evs : List AppEvent),
        st.screen = AppScreen.boardroom →
        (evs.foldl appStep st).screen = AppScreen.onboarding →
        st.sessionId < (evs.foldl appStep st).sessionId) ∧
    (∀ r : StartResponse,
        r.onboarding_complete = true → initialLoad r = LoadAction.complete r.context) := by
  refine ⟨?_, ?_, ?_⟩
  · intro st evs
    induction evs generalizing st with
    | nil =>
        intro hb _
        exact ⟨hb, by simp [messageTarget, hb]⟩
    | cons e rest ih =>
        intro hb hnr
        have hne : e ≠ AppEvent.resetSession := fun h => hnr (h ▸ List.mem_cons_self e rest)
        have hnr' : AppEvent.resetSession ∉ rest := fun h => hnr (List.mem_cons_of_mem e h)
        have hb' : (appStep st e).screen = AppScreen.boardroom := by
          cases e with
          | onboardingComplete ctx => rfl
          | resetSession => exact absurd rfl hne
          | userMessage t => exact hb
        exact ih (appStep st e) hb' hnr'
  · intro st evs
    induction evs generalizing st with
    | nil =>
        intro hb hend
        rw [List.foldl_nil] at hend
        rw [hb] at hend
        exact absurd hend (by simp)
    | cons e rest ih =>
        intro hb hend
        rw [List.foldl_cons] at hend ⊢
        cases e with
        | onboardingComplete ctx =>
            have := ih { st with screen := AppScreen.boardroom, context := ctx } rfl hend
            exact this
        | resetSession =>
            have hle := foldl_appStep_sessionId_le rest
              { screen := AppScreen.onboarding, sessionId := st.sessionId + 1, context := [] }
            exact Nat.lt_of_lt_of_le (Nat.lt_succ_self _) hle
        | userMessage t =>
            exact ih st hb hend
  · intro r hr
    simp [initialLoad, hr]

/-- C6 witness: the theorem applied to a boardroom state followed by a chat
message and an onboarding-complete event, and to a start payload that
reports completion. -/
theorem onboarding_complete_terminal_witness :
    (({ screen := AppScreen.boardroom, sessionId := 0, context := [] } : AppModel).screen
        = AppScreen.boardroom ∧
      AppEvent.resetSession ∉ [AppEvent.userMessage "hello"] ∧
      ([AppEvent.userMessage "hello"].foldl appStep
          { screen := AppScreen.boardroom, sessionId := 0, context := [] }).screen
        = AppScreen.boardroom) ∧
    ((true : Bool) = true ∧
      initialLoad { onboarding_complete := true, context := [("name", "Ada")], question := none }
        = LoadAction.complete [("name", "Ada")]) :=
  ⟨⟨rfl, by decide,
    (onboarding_complete_terminal.1
      { screen := AppScreen.boardroom, sessionId := 0, context := [] }
      [AppEvent.userMessage "hello"] rfl (by decide)).1⟩,
   ⟨rfl,
    onboarding_complete_terminal.2.2
      { onboarding_complete := true, context := [("name", "Ada")], question := none } rfl⟩⟩

/-- C7 counterexample: the claim fails as stated on the session-based
client. Starting from the message list left by an earlier run (`ceo` then
`cfo`), the later run's events arrive `cfo` first and `ceo` second with
pairwise-distinct keys, yet the client appends no message at all — each
event replaces the earlier run's same-key message in place — and the two
new contents render `ceo` before `cfo`, the old positions rather than the
arrival order. -/
theorem agent_response_replaces_prior_run :
    secondRunEvents.Pairwise (fun a b => a.agent ≠ b.agent) ∧
    secondRunEvents.foldl upsertAgentMsg priorRunMessages
      = [mkAgentMsg { agent := "ceo", content := "ceo: second run" },
         mkAgentMsg { agent := "cfo", content := "cfo: second run" }] ∧
    (secondRunEvents.foldl upsertAgentMsg priorRunMessages).length
      = priorRunMessages.length ∧
    secondRunEvents.foldl upsertAgentMsg priorRunMessages
      ≠ priorRunMessages ++ secondRunEvents.map mkAgentMsg := by
  refine ⟨by decide, by decide, by decide, by decide⟩

/-- C7 (amended): the auth-based client appends exactly one assistant
message per `agent_response` event, in arrival order, unconditionally; the
session-based client does the same only when the events' pairwise-distinct
agent keys match no existing non-synthesis message — an event whose key
matches one (the same persona answering in a later run) instead replaces
that message in place, at its old position (see the counterexample). -/
theorem agent_responses_in_arrival_order :
    (∀ (ms : List ChatMessage) (evs : List AgentResponseEvent),
        evs.foldl appendAgentMsg ms = ms ++ evs.map mkAgentMsg) ∧
    (∀ (ms : List ChatMessage) (evs : List AgentResponseEvent),
        evs.Pairwise (fun a b => a.agent ≠ b.agent) →
        (∀ e ∈ evs, ∀ m ∈ ms,
          (m.agentKey == some e.agent && !m.isSynthesis) = false) →
        evs.foldl upsertAgentMsg ms = ms ++ evs.map mkAgentMsg) := by
  constructor
  · intro ms evs
    induction evs generalizing ms with
    | nil => simp
    | cons e rest ih => simp [appendAgentMsg, ih]
  · intro ms evs hdist hfresh
    induction evs generalizing ms with
    | nil => simp
    | cons e rest ih =>
        have hnone : ms.findIdx? (fun m => m.agentKey == some e.agent && !m.isSynthesis)
            = none := by
          rw [List.findIdx?_eq_none_iff]
          intro m hm
          exact hfresh e (List.mem_cons_self e rest) m hm
        have hup : upsertAgentMsg ms e = ms ++ [mkAgentMsg e] := by
          unfold upsertAgentMsg
          rw [hnone]
        rw [List.foldl_cons, hup,
          ih (ms ++ [mkAgentMsg e]) (List.Pairwise.of_cons hdist) ?fresh]
        · simp
        case fresh =>
          intro e' he' m hm
          rcases List.mem_append.mp hm with hm | hm
          · exact hfresh e' (List.mem_cons_of_mem e he') m hm
          · have hme : m = mkAgentMsg e := by simpa using hm
            subst hme
            have hne : e.agent ≠ e'.agent := (List.pairwise_cons.mp hdist).1 e' he'
            simp [mkAgentMsg]
            intro h
            exact absurd h hne

/-- C7 witness: the amended theorem applied to two distinct-agent events —
appended by the auth-based client from any list, and by the session-based
client from an empty (hence fresh) list — rendering in arrival order. -/
theorem agent_responses_in_arrival_order_witness :
    (([{ agent := "ceo", content := "a" }, { agent := "cfo", content := "b" }] :
        List AgentResponseEvent).Pairwise (fun a b => a.agent ≠ b.agent)) ∧
    ([{ agent := "ceo", content := "a" }, { agent := "cfo", content := "b" }].foldl
        appendAgentMsg ([] : List ChatMessage)
      = [mkAgentMsg { agent := "ceo", content := "a" },
         mkAgentMsg { agent := "cfo", content := "b" }]) ∧
    ([{ agent := "ceo", content := "a" }, { agent := "cfo", content := "b" }].foldl
        upsertAgentMsg ([] : List ChatMessage)
      = [mkAgentMsg { agent := "ceo", content := "a" },
         mkAgentMsg { agent := "cfo", content := "b" }]) :=
  ⟨by simp, by
    have h := agent_responses_in_arrival_order.1 []
      [{ agent := "ceo", content := "a" }, { agent := "cfo", content := "b" }]
    simpa using h, by
    have h := agent_responses_in_arrival_order.2 []
      [{ agent := "ceo", content := "a" }, { agent := "cfo", content := "b" }]
      (by simp) (by intro e _ m hm; simp at hm)
    simpa using h⟩

/-- C8 counterexample: in the session-based client, a blank message with no
stream in progress still issues the `/api/chat` request and flips the
streaming flag — refuting "blank text returns without changing the
streaming flag and without issuing a network request". -/
theorem blank_message_still_fetches :
    jsTrim "" = "" ∧
    sendMessageSession { messages := [], isStreaming := false } ""
      = { state := { messages := [], isStreaming := true }, requestIssued := true } :=
  ⟨rfl, rfl⟩

/-- C8 (amended): whenever a stream is in progress, `sendMessage` in either
client returns without changing the message list or the streaming flag and
without issuing a request; blank text also short-circuits that way in the
auth-based client, while the session-based client proceeds on blank text —
it issues the request and sets the streaming flag (only the user-message
append is skipped). -/
theorem one_run_in_flight :
    (∀ (st : ChatState) (text : String) (token : Option String),
        st.isStreaming = true →
        sendMessageAuth st text token = { state := st, requestIssued := false }) ∧
    (∀ (st : ChatState) (text : String),
        st.isStreaming = true →
        sendMessageSession st text = { state := st, requestIssued := false }) ∧
    (∀ (st : ChatState) (text : String) (token : Option String),
        jsTrim text = "" →
        sendMessageAuth st text token = { state := st, requestIssued := false }) ∧
    (∀ (st : ChatState) (text : String),
        st.isStreaming = false →
        (sendMessageSession st text).requestIssued = true ∧
          (sendMessageSession st text).state.isStreaming = true ∧
          (sendMessageSession st text).state.messages.length ≤
            st.messages.length + 1) := by
  refine ⟨?_, ?_, ?_, ?_⟩
  · intro st text token h
    simp [sendMessageAuth, h]
  · intro st text h
    simp [sendMessageSession, h]
  · intro st text token h
    simp [sendMessageAuth, h]
  · intro st text h
    refine ⟨?_, ?_, ?_⟩ <;>
      · simp only [sendMessageSession, h]
        by_cases ht : jsTrim text = "" <;> simp [ht]

/-- C8 witness: the theorem applied with a stream in progress (auth and
session clients) and with blank text (auth client). -/
theorem one_run_in_flight_witness :
    (({ messages := [], isStreaming := true } : ChatState).isStreaming = true ∧
      sendMessageAuth { messages := [], isStreaming := true } "hi" (some "tok")
        = { state := { messages := [], isStreaming := true }, requestIssued := false } ∧
      sendMessageSession { messages := [], isStreaming := true } "hi"
        = { state := { messages := [], isStreaming := true }, requestIssued := false }) ∧
    (jsTrim "  " = "" ∧
      sendMessageAuth { messages := [], isStreaming := false } "  " (some "tok")
        = { state := { messages := [], isStreaming := false }, requestIssued := false }) :=
  ⟨⟨rfl,
    one_run_in_flight.1 { messages := [], isStreaming := true } "hi" (some "tok") rfl,
    one_run_in_flight.2.1 { messages := [], isStreaming := true } "hi" rfl⟩,
   ⟨rfl,
    one_run_in_flight.2.2.1 { messages := [], isStreaming := false } "  " (some "tok") rfl⟩⟩

/-- A split is never empty. -/
theorem splitOnNl_ne_nil : ∀ s : List Char, splitOnNl s ≠ [] := by
  intro s
  induction s with
  | nil => simp [splitOnNl]
  | cons c rest ih =>
      by_cases hc : c = '\n'
      · simp [splitOnNl, hc]
      · simp only [splitOnNl, hc, if_false]
        cases h : splitOnNl rest with
        | nil => exact absurd h ih
        | cons l ls => simp [consHead]

/-- `glue` keeps a non-empty second split non-empty. -/
theorem glue_ne_nil : ∀ (A B : List (List Char)), B ≠ [] → glue A B ≠ [] := by
  intro A
  induction A with
  | nil => intro B hB; simpa [glue] using hB
  | cons a as ih =>
      intro B hB
      cases as with
      | nil =>
          cases B with
          | nil => exact absurd rfl hB
          | cons b bs => simp [glue, consPre]
      | cons a' as' => simp [glue]

/-- `getLastD` of a non-empty list ignores the default. -/
theorem getLastD_indep {α : Type} (l : List α) (d d' : α) (h : l ≠ []) :
    l.getLastD d = l.getLastD d' := by
  cases l with
  | nil => exact absurd rfl h
  | cons x xs => rfl

/-- `consHead` commutes with `glue` on a non-empty first split. -/
theorem consHead_glue (c : Char) :
    ∀ (A B : List (List Char)), A ≠ [] →
      consHead c (glue A B) = glue (consHead c A) B := by
  intro A
  induction A with
  | nil => intro B h; exact absurd rfl h
  | cons a as ih =>
      intro B _
      cases as with
      | nil =>
          cases B with
          | nil => rfl
          | cons b bs => rfl
      | cons a' as' => rfl

/-- Splitting a concatenation glues the two splits. -/
theorem splitOnNl_append :
    ∀ a b : List Char, splitOnNl (a ++ b) = glue (splitOnNl a) (splitOnNl b) := by
  intro a
  induction a with
  | nil =>
      intro b
      cases h : splitOnNl b with
      | nil => exact absurd h (splitOnNl_ne_nil b)
      | cons l ls =>
          show splitOnNl ([] ++ b) = glue [[]] (l :: ls)
          rw [List.nil_append, h]
          rfl
  | cons c rest ih =>
      intro b
      by_cases hc : c = '\n'
      · subst hc
        simp only [List.cons_append, splitOnNl, if_true, List.append_eq]
        rw [ih b]
        cases h : splitOnNl rest with
        | nil => exact absurd h (splitOnNl_ne_nil rest)
        | cons l ls => simp [glue]
      · simp only [List.cons_append, splitOnNl, hc, if_false, List.append_eq]
        rw [ih b, consHead_glue c (splitOnNl rest) (splitOnNl b) (splitOnNl_ne_nil rest)]

/-- The trailing buffer never contains a newline. -/
theorem lastSeg_no_nl : ∀ s : List Char, '\n' ∉ lastSeg s := by
  intro s
  induction s with
  | nil => simp [lastSeg, splitOnNl]
  | cons c rest ih =>
      by_cases hc : c = '\n'
      · unfold lastSeg at ih ⊢
        simp only [splitOnNl, hc, if_true]
        rwa [List.getLastD_cons,
          getLastD_indep (splitOnNl rest) [] [] (splitOnNl_ne_nil rest)]
      · unfold lastSeg at ih ⊢
        simp only [splitOnNl, hc, if_false]
        cases h : splitOnNl rest with
        | nil => exact absurd h (splitOnNl_ne_nil rest)
        | cons l ls =>
            rw [h] at ih
            cases ls with
            | nil =>
                have ihl : '\n' ∉ l := ih
                show '\n' ∉ (consHead c [l]).getLastD []
                show '\n' ∉ c :: l
                intro hmem
                rcases List.mem_cons.mp hmem with h1 | h1
                · exact hc h1.symm
                · exact ihl h1
            | cons l' ls' =>
                show '\n' ∉ (consHead c (l :: l' :: ls')).getLastD []
                show '\n' ∉ ((c :: l) :: l' :: ls').getLastD []
                rw [List.getLastD_cons]
                rw [List.getLastD_cons] at ih
                rwa [getLastD_indep (l' :: ls') (c :: l) l (by simp)]

/-- A newline-free string splits into a single segment. -/
theorem splitOnNl_no_nl : ∀ s : List Char, '\n' ∉ s → splitOnNl s = [s] := by
  intro s
  induction s with
  | nil => intro _; rfl
  | cons c rest ih =>
      intro h
      have hc : c ≠ '\n' := fun hceq => h (hceq ▸ List.mem_cons_self c rest)
      have hrest : '\n' ∉ rest := fun hmem => h (List.mem_cons_of_mem c hmem)
      simp only [splitOnNl, hc, if_false]
      rw [ih hrest]
      rfl

/-- Dropping the buffer from a glued split keeps the first split's complete
lines and the fused remainder's complete lines. -/
theorem dropLast_glue :
    ∀ (A B : List (List Char)), A ≠ [] → B ≠ [] →
      (glue A B).dropLast = A.dropLast ++ (consPre (A.getLastD []) B).dropLast := by
  intro A
  induction A with
  | nil => intro B h _; exact absurd rfl h
  | cons a as ih =>
      intro B _ hB
      cases as with
      | nil => simp [glue]
      | cons a' as' =>
          have hg : glue (a' :: as') B ≠ [] := glue_ne_nil (a' :: as') B hB
          calc (glue (a :: a' :: as') B).dropLast
              = (a :: glue (a' :: as') B).dropLast := rfl
            _ = a :: (glue (a' :: as') B).dropLast := by
                  cases h : glue (a' :: as') B with
                  | nil => exact absurd h hg
                  | cons g gs => simp
            _ = a :: ((a' :: as').dropLast ++ (consPre ((a' :: as').getLastD []) B).dropLast) := by
                  rw [ih B (by simp) hB]
            _ = (a :: a' :: as').dropLast ++ (consPre ((a :: a' :: as').getLastD []) B).dropLast := by
                  simp [List.getLastD_cons]

/-- The buffer after a glued split is the buffer of the fused remainder. -/
theorem getLastD_glue :
    ∀ (A B : List (List Char)), A ≠ [] → B ≠ [] →
      (glue A B).getLastD [] = (consPre (A.getLastD []) B).getLastD [] := by
  intro A
  induction A with
  | nil => intro B h _; exact absurd rfl h
  | cons a as ih =>
      intro B _ hB
      cases as with
      | nil => rfl
      | cons a' as' =>
          have hg : glue (a' :: as') B ≠ [] := glue_ne_nil (a' :: as') B hB
          calc (glue (a :: a' :: as') B).getLastD []
              = (a :: glue (a' :: as') B).getLastD [] := rfl
            _ = (glue (a' :: as') B).getLastD a := List.getLastD_cons _ _ _
            _ = (glue (a' :: as') B).getLastD [] := getLastD_indep _ _ _ hg
            _ = (consPre ((a' :: as').getLastD []) B).getLastD [] := ih B (by simp) hB
            _ = (consPre ((a :: a' :: as').getLastD []) B).getLastD [] := by
                  simp [List.getLastD_cons]

/-- Complete lines of a concatenation: the first part's complete lines,
then the complete lines of its trailing buffer fused with the rest. -/
theorem completeLines_append (s t : List Char) :
    completeLines (s ++ t) = completeLines s ++ completeLines (lastSeg s ++ t) := by
  have h1 : splitOnNl (lastSeg s ++ t) = consPre (lastSeg s) (splitOnNl t) := by
    rw [splitOnNl_append (lastSeg s) t, splitOnNl_no_nl (lastSeg s) (lastSeg_no_nl s)]
    rfl
  unfold completeLines
  rw [splitOnNl_append s t, h1,
    dropLast_glue (splitOnNl s) (splitOnNl t) (splitOnNl_ne_nil s) (splitOnNl_ne_nil t)]
  rfl

/-- Trailing buffer of a concatenation: the trailing buffer of its own
trailing buffer fused with the rest. -/
theorem lastSeg_append (s t : List Char) :
    lastSeg (s ++ t) = lastSeg (lastSeg s ++ t) := by
  have h1 : splitOnNl (lastSeg s ++ t) = consPre (lastSeg s) (splitOnNl t) := by
    rw [splitOnNl_append (lastSeg s) t, splitOnNl_no_nl (lastSeg s) (lastSeg_no_nl s)]
    rfl
  show (splitOnNl (s ++ t)).getLastD [] = (splitOnNl (lastSeg s ++ t)).getLastD []
  rw [splitOnNl_append s t, h1,
    getLastD_glue (splitOnNl s) (splitOnNl t) (splitOnNl_ne_nil s) (splitOnNl_ne_nil t)]
  rfl

/-- Events of a concatenation: the first part's events, then the events of
its trailing buffer fused with the rest. -/
theorem allLineEvents_append {E : Type} (parse : List Char → Option E)
    (s t : List Char) :
    allLineEvents parse (s ++ t)
      = allLineEvents parse s ++ allLineEvents parse (lastSeg s ++ t) := by
  unfold allLineEvents
  rw [completeLines_append s t, List.filterMap_append]

/-- Read-loop invariant: folding any chunks onto accumulated events and a
newline-free buffer yields the events of every complete line of the
buffered text, in order, with the text after the last newline as the new
buffer. -/
theorem processChunk_foldl {E : Type} (parse : List Char → Option E) :
    ∀ (chunks : List (List Char)) (evs : List E) (buf : List Char),
      '\n' ∉ buf →
      chunks.foldl (processChunk parse) (evs, buf)
        = (evs ++ allLineEvents parse (buf ++ chunks.flatten),
           lastSeg (buf ++ chunks.flatten)) := by
  intro chunks
  induction chunks with
  | nil =>
      intro evs buf hbuf
      have h2 : allLineEvents parse buf = [] := by
        unfold allLineEvents completeLines
        rw [splitOnNl_no_nl buf hbuf]
        rfl
      have h3 : lastSeg buf = buf := by
        unfold lastSeg
        rw [splitOnNl_no_nl buf hbuf]
        rfl
      simp only [List.foldl_nil, List.flatten_nil, List.append_nil, h2, h3]
  | cons c rest ih =>
      intro evs buf hbuf
      rw [List.foldl_cons]
      show rest.foldl (processChunk parse)
          (evs ++ allLineEvents parse (buf ++ c), lastSeg (buf ++ c)) = _
      rw [ih _ _ (lastSeg_no_nl (buf ++ c))]
      have hjoin : buf ++ (c :: rest).flatten = (buf ++ c) ++ rest.flatten := by
        simp [List.flatten_cons]
      rw [hjoin, allLineEvents_append parse (buf ++ c) rest.flatten,
        lastSeg_append (buf ++ c) rest.flatten, List.append_assoc]

/-- C9: for any byte stream and any chunk boundaries, the read loop yields
exactly the events of the complete (newline-terminated) lines of the whole
stream, in order — a line split across chunks is buffered until its newline
arrives and is then parsed exactly once, and a line without the `data: `
marker (or whose payload the parser rejects, `parse = none`) is skipped
without stopping the loop, so processing always reaches the end of the
stream. -/
theorem stream_chunking_robust {E : Type} (parse : List Char → Option E)
    (chunks : List (List Char)) :
    processStream parse chunks = allLineEvents parse chunks.flatten ∧
    (∀ line : List Char, leadsWith dataChars line = false →
        lineToEvent parse line = none) ∧
    (∀ payload : List Char, lineToEvent parse (dataChars ++ payload) = parse payload) := by
  refine ⟨?_, ?_, ?_⟩
  · unfold processStream
    rw [processChunk_foldl parse chunks [] [] (by simp)]
    simp
  · intro line h
    unfold lineToEvent
    rw [h]
    rfl
  · intro payload
    unfold lineToEvent
    simp [dataChars, leadsWith]

/-- C9 witness: the theorem applied to a parser accepting payload `1` and
to chunks that split the `data: ` line across reads; the malformed line
`xy` is skipped. -/
theorem stream_chunking_robust_witness :
    processStream digitParse
        [['d', 'a'], ['t', 'a', ':', ' ', '1', '\n', 'x'], ['y', '\n']] = [1] ∧
    (leadsWith dataChars ['x', 'y'] = false ∧
      lineToEvent digitParse ['x', 'y'] = none) :=
  ⟨(stream_chunking_robust digitParse
      [['d', 'a'], ['t', 'a', ':', ' ', '1', '\n', 'x'], ['y', '\n']]).1.trans rfl,
   ⟨rfl, (stream_chunking_robust digitParse []).2.1 ['x', 'y'] rfl⟩⟩

/-- The delimiter scanner is the identity on strings free of the opening
delimiter's first character. -/
theorem replaceDelimFuel_id (c0 : Char) (opn cls wl wr : List Char)
    (hop : opn.head? = some c0) :
    ∀ (s : List Char) (n : Nat), c0 ∉ s →
      replaceDelimFuel opn cls wl wr n s = s := by
  intro s
  induction s with
  | nil => intro n _; cases n <;> rfl
  | cons c t ih =>
      intro n hns
      cases n with
      | zero => rfl
      | succ m =>
          have hne : c0 ≠ c := fun h => hns (h ▸ List.mem_cons_self c t)
          have hlw : leadsWith opn (c :: t) = false := by
            rcases opn with _ | ⟨o, os⟩
            · simp at hop
            · have ho : o = c0 := by simpa using hop
              have hb : (o == c) = false :=
                beq_eq_false_iff_ne.mpr (fun hoc => hne (ho.symm.trans hoc))
              simp [leadsWith, hb]
          have ht : c0 ∉ t := fun h => hns (List.mem_cons_of_mem c h)
          simp only [replaceDelimFuel, hlw, Bool.false_eq_true, if_false]
          rw [ih m ht]

/-- `replaceBold` is the identity on asterisk-free strings. -/
theorem replaceBold_id (s : List Char) (h : '*' ∉ s) : replaceBold s = s :=
  replaceDelimFuel_id '*' boldTok boldTok strongOpen strongClose rfl s s.length h

/-- `replaceEm` is the identity on asterisk-free strings. -/
theorem replaceEm_id (s : List Char) (h : '*' ∉ s) : replaceEm s = s :=
  replaceDelimFuel_id '*' emTok emTok emOpen emClose rfl s s.length h

/-- A per-line transform that fixes a newline-free string fixes it under
`mapLines`. -/
theorem mapLines_id (f : List Char → List Char) (s : List Char)
    (hnl : '\n' ∉ s) (hf : f s = s) : mapLines f s = s := by
  unfold mapLines
  rw [splitOnNl_no_nl s hnl]
  show joinNl [f s] = s
  rw [hf]
  rfl

/-- Unpack `headSafe` on a non-empty line. -/
theorem headSafe_cons (c : Char) (t : List Char) (h : headSafe (c :: t) = true) :
    (c == '#') = false ∧ (c == '-') = false ∧ c.isDigit = false := by
  have h' : (c == '#' || c == '-' || c.isDigit) = false := by
    have hb : (!(c == '#' || c == '-' || c.isDigit)) = true := h
    simpa using hb
  rcases Bool.or_eq_false_iff.mp h' with ⟨h1, h2⟩
  rcases Bool.or_eq_false_iff.mp h1 with ⟨h3, h4⟩
  exact ⟨h3, h4, h2⟩

/-- `h3Line` fixes lines not starting with `#`. -/
theorem h3Line_id (line : List Char) (h : headSafe line = true) :
    h3Line line = line := by
  cases line with
  | nil => rfl
  | cons c t =>
      have hc : ('#' == c) = false :=
        beq_eq_false_iff_ne.mpr
          (fun he => by
            have := (headSafe_cons c t h).1
            rw [he.symm] at this
            simp at this)
      simp [h3Line, h3Tok, leadsWith, hc]

/-- `h2Line` fixes lines not starting with `#`. -/
theorem h2Line_id (line : List Char) (h : headSafe line = true) :
    h2Line line = line := by
  cases line with
  | nil => rfl
  | cons c t =>
      have hc : ('#' == c) = false :=
        beq_eq_false_iff_ne.mpr
          (fun he => by
            have := (headSafe_cons c t h).1
            rw [he.symm] at this
            simp at this)
      simp [h2Line, h2Tok, leadsWith, hc]

/-- `h1Line` fixes lines not starting with `#`. -/
theorem h1Line_id (line : List Char) (h : headSafe line = true) :
    h1Line line = line := by
  cases line with
  | nil => rfl
  | cons c t =>
      have hc : ('#' == c) = false :=
        beq_eq_false_iff_ne.mpr
          (fun he => by
            have := (headSafe_cons c t h).1
            rw [he.symm] at this
            simp at this)
      simp [h1Line, h1Tok, leadsWith, hc]

/-- `dashLine` fixes lines not starting with `-`. -/
theorem dashLine_id (line : List Char) (h : headSafe line = true) :
    dashLine line = line := by
  cases line with
  | nil => rfl
  | cons c t =>
      have hc : ('-' == c) = false :=
        beq_eq_false_iff_ne.mpr
          (fun he => by
            have := (headSafe_cons c t h).2.1
            rw [he.symm] at this
            simp at this)
      simp [dashLine, dashTok, leadsWith, hc]

/-- `hrLine` fixes lines not starting with `-`. -/
theorem hrLine_id (line : List Char) (h : headSafe line = true) :
    hrLine line = line := by
  unfold hrLine
  have hne : line ≠ hrTok := by
    intro he
    subst he
    simp [headSafe, hrTok] at h
  simp [hne]

/-- `numLine` fixes lines not starting with a digit. -/
theorem numLine_id (line : List Char) (h : headSafe line = true) :
    numLine line = line := by
  cases line with
  | nil => rfl
  | cons c t =>
      have hd : c.isDigit = false := (headSafe_cons c t h).2.2
      simp [numLine, List.takeWhile_cons, hd]

/-- The final callback fixes every line. -/
theorem ltLine_id (line : List Char) : ltLine line = line := by
  unfold ltLine
  split <;> rfl

/-- `paraScan` fixes newline-free strings. -/
theorem paraScan_id : ∀ s : List Char, '\n' ∉ s → paraScan s = s := by
  intro s
  induction s with
  | nil => intro _; rfl
  | cons c t ih =>
      intro h
      have hc : c ≠ '\n' := fun he => h (he ▸ List.mem_cons_self c t)
      have ht : '\n' ∉ t := fun hm => h (List.mem_cons_of_mem c hm)
      cases t with
      | nil => rfl
      | cons c' t' =>
          have hcond : ¬(c = '\n' ∧ c' = '\n') := fun hand => hc hand.1
          simp only [paraScan, hcond, if_false]
          rw [ih ht]

/-- `ulFuel` fixes strings with no `<li>` occurrence. -/
theorem ulFuel_id : ∀ (s : List Char) (n : Nat),
    occursIn liTok s = false → ulFuel n s = s := by
  intro s
  induction s with
  | nil => intro n _; cases n <;> rfl
  | cons c t ih =>
      intro n h
      have hocc : leadsWith liTok (c :: t) = false ∧ occursIn liTok t = false := by
        have hu : (leadsWith liTok (c :: t) || occursIn liTok t) = false := h
        exact Bool.or_eq_false_iff.mp hu
      cases n with
      | zero => rfl
      | succ m =>
          have hrep : repsFuel (m + 1) (c :: t) = none := by
            simp [repsFuel, oneRep, hocc.1]
          simp only [ulFuel, hrep]
          rw [ih m hocc.2]

/-- `ulWrap` fixes strings with no `<li>` occurrence. -/
theorem ulWrap_id (s : List Char) (h : occursIn liTok s = false) :
    ulWrap s = s :=
  ulFuel_id s s.length h

/-- C10 (amended): `renderMarkdown` performs no HTML escaping or
sanitization — every input free of the markdown trigger patterns (no
asterisk, no newline, no `<li>` occurrence, first character not `#`, `-`
or a digit) is returned verbatim, and the agent-message component injects
exactly that string through `dangerouslySetInnerHTML`; an HTML tag
containing a markdown delimiter pattern, however, is rewritten (see the
counterexample). -/
theorem renderMarkdown_no_escaping (s : List Char) (h : triggerFree s = true) :
    renderMarkdown s = s ∧ agentMessageInnerHtml s = s := by
  have hparts : (!s.contains '\n') = true ∧ (!s.contains '*') = true ∧
      (!occursIn liTok s) = true ∧ headSafe s = true := by
    have h1 := h
    unfold triggerFree at h1
    simp only [Bool.and_eq_true] at h1
    exact ⟨h1.1.1.1, h1.1.1.2, h1.1.2, h1.2⟩
  have hnl : '\n' ∉ s := by
    have hb : s.contains '\n' = false := by simpa using hparts.1
    simpa using hb
  have hst : '*' ∉ s := by
    have hb : s.contains '*' = false := by simpa using hparts.2.1
    simpa using hb
  have hli : occursIn liTok s = false := by simpa using hparts.2.2.1
  have hhd : headSafe s = true := hparts.2.2.2
  have hall : renderMarkdown s = s := by
    unfold renderMarkdown
    rw [replaceBold_id s hst, replaceEm_id s hst,
      mapLines_id h3Line s hnl (h3Line_id s hhd),
      mapLines_id h2Line s hnl (h2Line_id s hhd),
      mapLines_id h1Line s hnl (h1Line_id s hhd),
      mapLines_id dashLine s hnl (dashLine_id s hhd),
      ulWrap_id s hli,
      mapLines_id numLine s hnl (numLine_id s hhd),
      mapLines_id hrLine s hnl (hrLine_id s hhd),
      paraScan_id s hnl,
      mapLines_id ltLine s hnl (ltLine_id s)]
  exact ⟨hall, hall⟩

/-- C10 witness: the theorem applied to a script tag, which reaches the
injected HTML verbatim. -/
theorem renderMarkdown_no_escaping_witness :
    triggerFree scriptTag = true ∧ renderMarkdown scriptTag = scriptTag ∧
    agentMessageInnerHtml scriptTag = scriptTag :=
  ⟨rfl, (renderMarkdown_no_escaping scriptTag rfl).1,
    (renderMarkdown_no_escaping scriptTag rfl).2⟩

/-- C10 counterexample: `<img src=**a**>` is an HTML tag (unquoted
attribute value) and a substring of itself, yet `renderMarkdown` rewrites
the bold marker inside it, so the tag does not appear verbatim in the
returned HTML. -/
theorem markdown_rewrites_inside_tag :
    isHtmlTagLike imgTag = true ∧
    occursIn imgTag imgTag = true ∧
    renderMarkdown imgTag = "<img src=<strong>a</strong>>".toList ∧
    occursIn imgTag (renderMarkdown imgTag) = false := by
  refine ⟨rfl, rfl, rfl, rfl⟩

end ExecOS
